/-
Verification of the GAP advertising-data TLV payload store
(`ble/GapAdvertisingData.h`): a 31-byte buffer of length-prefixed
records, with per-type merge semantics on insertion.

The embedding models the C++ class state as a list of byte values
(`Nat`, kept below 256 on every reachable state) of length 31 plus the
occupied-length counter and the cached appearance value.  Array writes
use `List.set` (out-of-range writes are dropped; a separate checked
variant with `Option` indexing is used where in-boundedness itself is
the question).  One out-of-range write is actually reachable — the
append-merge gap-opening loop at `_payloadLen + len = 31` — so the
theorems that characterise that merge stay strictly below the boundary,
where checked and unchecked accesses provably coincide, and the
boundary is established as an out-of-bounds defect through the checked
embedding.  `uint8_t` arithmetic is carried out on `Nat`; the spots
where a C cast could wrap are guarded by the same capacity checks the
source performs, and a `% 256` is kept where a wrap is reachable.
Comparisons that C performs after integer promotion (`int`) are carried
out on `Int` where a negative intermediate is possible.
-/
import Mathlib

set_option maxHeartbeats 1000000

/-- Result codes from `blecommon.h` (not among the provided sources;
only the constructors used by `GapAdvertisingData` are modelled). -/
inductive BleError where
  | none
  | bufferOverflow
  | notImplemented
  | invalidParam
  | unspecified
  deriving DecidableEq, Repr

/-- The two merge behaviours `addData` implements for an already-present
field type: the first `case` block of the `switch` overwrites, the
second appends. -/
inductive MergeClass where
  | replace
  | append
  deriving DecidableEq, Repr

/-- `GapAdvertisingData::DataType_t`. -/
inductive DataType where
  | flags
  | incompleteList16
  | completeList16
  | incompleteList32
  | completeList32
  | incompleteList128
  | completeList128
  | shortenedLocalName
  | completeLocalName
  | txPowerLevel
  | deviceId
  | slaveConnectionIntervalRange
  | list128SolicitationIds
  | serviceData
  | appearance
  | advertisingInterval
  | manufacturerSpecificData
  deriving DecidableEq, Repr

/-- The assigned numeric value of each `DataType_t` enumerator. -/
def DataType.tag : DataType → Nat
  | .flags => 0x01
  | .incompleteList16 => 0x02
  | .completeList16 => 0x03
  | .incompleteList32 => 0x04
  | .completeList32 => 0x05
  | .incompleteList128 => 0x06
  | .completeList128 => 0x07
  | .shortenedLocalName => 0x08
  | .completeLocalName => 0x09
  | .txPowerLevel => 0x0A
  | .deviceId => 0x10
  | .slaveConnectionIntervalRange => 0x12
  | .list128SolicitationIds => 0x15
  | .serviceData => 0x16
  | .appearance => 0x19
  | .advertisingInterval => 0x1A
  | .manufacturerSpecificData => 0xFF

/-- Which `case` group of `addData`'s `switch` each type falls in.  The
first group (overwrite) and the second group (append) together cover
every enumerator, so the `default:` branch returning
`BLE_ERROR_NOT_IMPLEMENTED` is unreachable for values of the enum. -/
def DataType.mergeClass : DataType → MergeClass
  | .flags => .replace
  | .shortenedLocalName => .replace
  | .completeLocalName => .replace
  | .txPowerLevel => .replace
  | .deviceId => .replace
  | .slaveConnectionIntervalRange => .replace
  | .serviceData => .replace
  | .appearance => .replace
  | .advertisingInterval => .replace
  | .manufacturerSpecificData => .replace
  | .incompleteList16 => .append
  | .completeList16 => .append
  | .incompleteList32 => .append
  | .completeList32 => .append
  | .incompleteList128 => .append
  | .completeList128 => .append
  | .list128SolicitationIds => .append

/-- `GAP_ADVERTISING_DATA_MAX_PAYLOAD`. -/
def GAP_ADVERTISING_DATA_MAX_PAYLOAD : Nat := 31

/-- Modelled from the spec: `BLEProtocol::AppearanceType::GENERIC_TAG`
is declared in `BLEProtocol.h`, which is not among the provided
sources; the GAP appearance assigned numbers give it the value 512,
the value the spec's scenario uses for a generic-tag appearance. -/
def GENERIC_TAG : Nat := 512

/-- The state of a `GapAdvertisingData` object: the 31-byte `_payload`
array, the occupied length `_payloadLen`, and the cached appearance. -/
structure GapAdvertisingData where
  _payload : List Nat
  _payloadLen : Nat
  _appearance : Nat
  deriving DecidableEq, Repr

/-- Read `_payload[i]` (the array is value-initialised, so unoccupied
cells start at 0). -/
def getByte (p : List Nat) (i : Nat) : Nat := p.getD i 0

/-- Write `_payload[i] = v`.  A write beyond the list is dropped; where
such a write is reachable it is flagged by the checked variant below. -/
def setByte (p : List Nat) (i : Nat) (v : Nat) : List Nat := p.set i v

/-- The bytes at indices `s, s+1, ..., s+n-1`. -/
def readBytes (p : List Nat) (s n : Nat) : List Nat :=
  (List.range n).map (fun k => getByte p (s + k))

/-- `memcpy(&p[dst], src, n)`: copy `n` bytes of `src` to `p` at `dst`. -/
def copyBytes (p : List Nat) (dst : Nat) (src : List Nat) : Nat → List Nat
  | 0 => p
  | n + 1 => setByte (copyBytes p dst src n) (dst + n) (getByte src n)

/-- The constructor: `_payload()` zero-initialises the array,
`_payloadLen(0)`, `_appearance(GENERIC_TAG)`. -/
def emptyStore : GapAdvertisingData :=
  { _payload := List.replicate 31 0, _payloadLen := 0, _appearance := GENERIC_TAG }

/-- The scan loop of the private `findField`: starting at `idx`, read the
type byte at `idx + 1`, return `idx` on a match, otherwise advance by
`_payload[idx] + 1`.  (The loop counter is a `uint8_t` in the source; on
every state the theorems below consider, `idx + _payload[idx] + 1 < 256`,
so the cast is the identity.) -/
def findFieldFrom (p : List Nat) (plen tag idx : Nat) : Option Nat :=
  if h : idx < plen then
    if getByte p (idx + 1) = tag then some idx
    else findFieldFrom p plen tag (idx + getByte p idx + 1)
  else none
termination_by plen - idx
decreasing_by omega

/-- The private `findField(DataType_t)`. -/
def GapAdvertisingData.findField (s : GapAdvertisingData) (t : DataType) : Option Nat :=
  findFieldFrom s._payload s._payloadLen t.tag 0

/-- The public const `findField` accessor: its body is
`return findField(type);`, which inside a const member resolves to the
const overload itself, so the call recurses without ever scanning.  The
self-call is modelled with a fuel argument; no amount of fuel produces
a result. -/
def findFieldConstFuel : Nat → GapAdvertisingData → DataType → Option Nat
  | 0, _, _ => Option.none
  | fuel + 1, s, t => findFieldConstFuel fuel s t

/-- `appendField`: reject if `_payloadLen + len + 2 > 31`, else write the
record length byte `len + 1`, the type tag, and the `len` value bytes at
the end of the buffer, and advance `_payloadLen`.  (The guard bounds
`len ≤ 29`, so the `uint8_t` store of `len + 1` cannot wrap.) -/
def appendField (s : GapAdvertisingData) (t : DataType) (payload : List Nat)
    (len : Nat) : BleError × GapAdvertisingData :=
  if s._payloadLen + len + 2 > GAP_ADVERTISING_DATA_MAX_PAYLOAD then
    (BleError.bufferOverflow, s)
  else
    let p1 := setByte s._payload s._payloadLen (len + 1)
    let p2 := setByte p1 (s._payloadLen + 1) t.tag
    let p3 := copyBytes p2 (s._payloadLen + 2) payload len
    (BleError.none, { s with _payload := p3, _payloadLen := s._payloadLen + len + 2 })

/-- The removal loop of `addData`'s overwrite branch:
`while (field + dataLength + 2 < &_payload[_payloadLen]) { *field = field[dataLength + 2]; field++; }`
with `gap = dataLength + 2`.  The loop runs exactly
`_payloadLen - (pos + gap)` times (the bound is fixed and the index
increases by one), so the iteration count is made the structural
argument; `i` is the moving `field` index. -/
def shiftLeftLoop (gap : Nat) : List Nat → Nat → Nat → List Nat
  | p, _, 0 => p
  | p, i, rem + 1 => shiftLeftLoop gap (setByte p i (getByte p (i + gap))) (i + 1) rem

/-- The gap-opening loop of `addData`'s append branch:
`uint8_t* end = &_payload[_payloadLen]; while (&field[1] < end) { end[len] = *end; end--; }`
with `f` the index of `field` and `e` the moving index of `end`
(initially `_payloadLen`).  Note the first iteration reads index
`_payloadLen` and writes index `_payloadLen + len`: when
`_payloadLen + len = 31` that write is one past the 31-byte array, an
out-of-bounds access this unchecked model drops (`List.set` is a no-op
out of range) but the bounds-checked variant below reports; by
`shiftRightLoopChecked_eq` the two variants agree whenever
`e + len < p.length`, i.e. away from that boundary, and only that
region is used to characterise the merge. -/
def shiftRightLoop (f len : Nat) : List Nat → Nat → List Nat
  | p, 0 => p
  | p, e + 1 =>
    if f + 1 < e + 1 then
      shiftRightLoop f len (setByte p (e + 1 + len) (getByte p (e + 1))) e
    else p

/-- `setByte` with an explicit bounds check, for stating which writes of
the source stay inside the 31-byte array. -/
def setByteChecked (p : List Nat) (i v : Nat) : Option (List Nat) :=
  if i < p.length then some (p.set i v) else Option.none

/-- `shiftRightLoop` in a total embedding where every array access is
bounds-checked: `none` means the source loop touched an index outside
the array. -/
def shiftRightLoopChecked (f len : Nat) : List Nat → Nat → Option (List Nat)
  | p, 0 => some p
  | p, e + 1 =>
    if f + 1 < e + 1 then
      match p[e + 1]? with
      | Option.none => Option.none
      | some v =>
        match setByteChecked p (e + 1 + len) v with
        | Option.none => Option.none
        | some q => shiftRightLoopChecked f len q e
    else some p

/-- `GapAdvertisingData::addData`.  `result` starts as
`BLE_ERROR_BUFFER_OVERFLOW` and the same-length overwrite branch never
updates it, exactly as in the source.  `dataLength = field[0] - 1`
(`field[0] ≥ 1` on every well-formed buffer, so the `uint8_t` cast is
the identity); the fitting test of the different-length branch is an
`int` comparison after promotion, hence computed on `Int`.  The append
branch uses the unchecked `shiftRightLoop`, so at the boundary
`_payloadLen + len = 31` — where the guard passes but the source loop
writes `_payload[31]` — this model silently drops that write; theorems
that characterise the merge therefore assume `_payloadLen + len ≤ 30`
(where the checked loop provably agrees), and the boundary itself is
treated as the out-of-bounds defect it is, via
`shiftRightLoopChecked`. -/
def addData (s : GapAdvertisingData) (t : DataType) (payload : List Nat)
    (len : Nat) : BleError × GapAdvertisingData :=
  match findFieldFrom s._payload s._payloadLen t.tag 0 with
  | some pos =>
    match t.mergeClass with
    | MergeClass.replace =>
      let dataLength := getByte s._payload pos - 1
      if len = dataLength then
        (BleError.bufferOverflow,
          { s with _payload := copyBytes s._payload (pos + 2) payload dataLength })
      else if (s._payloadLen : Int) - (dataLength : Int) + (len : Int) ≤ 31 then
        let p1 := shiftLeftLoop (dataLength + 2) s._payload pos
          (s._payloadLen - (pos + (dataLength + 2)))
        appendField
          { s with _payload := p1, _payloadLen := s._payloadLen - (dataLength + 2) }
          t payload len
      else (BleError.bufferOverflow, s)
    | MergeClass.append =>
      if s._payloadLen + len ≤ GAP_ADVERTISING_DATA_MAX_PAYLOAD then
        let p1 := shiftRightLoop pos len s._payload s._payloadLen
        let p2 := copyBytes p1 (pos + 2) payload len
        let p3 := setByte p2 pos ((getByte p2 pos + len) % 256)
        (BleError.none, { s with _payload := p3, _payloadLen := s._payloadLen + len })
      else (BleError.bufferOverflow, s)
  | Option.none => appendField s t payload len

/-- The scan loop of `updateData`: at each record boundary compare the
record length byte with `len + 1` and the type byte with the tag; on a
match `memcpy` the new value over the record's value bytes and succeed,
otherwise advance by the record length byte plus one. -/
def updateDataLoop (p : List Nat) (plen tag : Nat) (pl : List Nat) (len : Nat)
    (byteIndex : Nat) : BleError × List Nat :=
  if h : byteIndex < plen then
    if getByte p byteIndex = len + 1 ∧ getByte p (byteIndex + 1) = tag then
      (BleError.none, copyBytes p (byteIndex + 2) pl len)
    else updateDataLoop p plen tag pl len (byteIndex + getByte p byteIndex + 1)
  else (BleError.unspecified, p)
termination_by plen - byteIndex
decreasing_by omega

/-- `GapAdvertisingData::updateData`.  The `payload` pointer is modelled
as an `Option`; `none` is `NULL`. -/
def updateData (s : GapAdvertisingData) (t : DataType) (payload : Option (List Nat))
    (len : Nat) : BleError × GapAdvertisingData :=
  match payload with
  | Option.none => (BleError.invalidParam, s)
  | some pl =>
    if len = 0 then (BleError.invalidParam, s)
    else
      let r := updateDataLoop s._payload s._payloadLen t.tag pl len 0
      (r.1, { s with _payload := r.2 })

/-- `clear`: zero the whole capacity, reset the length. -/
def GapAdvertisingData.clear (_s : GapAdvertisingData) : GapAdvertisingData :=
  { _payload := List.replicate 31 0, _payloadLen := 0,
    _appearance := _s._appearance }

/-- `addAppearance`: record the cached value first, then insert the two
little-endian bytes of the `uint16_t` argument. -/
def addAppearance (s : GapAdvertisingData) (v : Nat) : BleError × GapAdvertisingData :=
  let a := v % 65536
  addData { s with _appearance := a } DataType.appearance [a % 256, a / 256] 2

/-- `addFlags`. -/
def addFlags (s : GapAdvertisingData) (f : Nat) : BleError × GapAdvertisingData :=
  addData s DataType.flags [f % 256] 1

/-- `addTxPower`: the `int8_t` argument is reinterpreted as its
two's-complement byte. -/
def addTxPower (s : GapAdvertisingData) (v : Int) : BleError × GapAdvertisingData :=
  addData s DataType.txPowerLevel [(v % 256).toNat] 1

/-- `getPayloadLen`. -/
def getPayloadLen (s : GapAdvertisingData) : Nat := s._payloadLen

/-- `getAppearance`. -/
def getAppearance (s : GapAdvertisingData) : Nat := s._appearance

/-- One decoded ADV record, after `updateData`'s local `ADVField_t`
(the length byte is derived: it is `bytes.length + 1`). -/
structure ADVField where
  ftype : Nat
  bytes : List Nat
  deriving DecidableEq, Repr

/-- Occupied size of an encoded record list: each record takes its
length byte plus `recordLength = bytes.length + 1` further bytes. -/
def encLen (rs : List ADVField) : Nat :=
  (rs.map (fun r => r.bytes.length + 2)).sum

/-- Decode the buffer as a record sequence from `idx` up to exactly
`plen`: each step needs a non-zero length byte and the whole record
inside `plen`. -/
def decodeFrom (p : List Nat) (plen idx : Nat) : Option (List ADVField) :=
  if h : idx < plen then
    if hL : 1 ≤ getByte p idx ∧ idx + getByte p idx + 1 ≤ plen then
      match decodeFrom p plen (idx + getByte p idx + 1) with
      | some rs =>
        some (⟨getByte p (idx + 1), readBytes p (idx + 2) (getByte p idx - 1)⟩ :: rs)
      | Option.none => Option.none
    else Option.none
  else some []
termination_by plen - idx
decreasing_by omega

/-- `DecSeg p i j rs`: the bytes of `p` from `i` up to exactly `j` are
the back-to-back encoding of the records `rs`. -/
inductive DecSeg (p : List Nat) : Nat → Nat → List ADVField → Prop where
  | nil (i : Nat) : DecSeg p i i []
  | cons (i j : Nat) (r : ADVField) (rs : List ADVField)
      (hlen : getByte p i = r.bytes.length + 1)
      (htype : getByte p (i + 1) = r.ftype)
      (hval : readBytes p (i + 2) r.bytes.length = r.bytes)
      (hrest : DecSeg p (i + r.bytes.length + 2) j rs) :
      DecSeg p i j (r :: rs)

/-- Offset of the first record in `rs` whose type is `tag`, when the
list is laid out starting at offset `idx`. -/
def firstMatchOffset (rs : List ADVField) (tag idx : Nat) : Option Nat :=
  match rs with
  | [] => Option.none
  | r :: rest =>
    if r.ftype = tag then some idx
    else firstMatchOffset rest tag (idx + r.bytes.length + 2)

/-- The store operations a client can issue (the claims' sequences). -/
inductive StoreOp where
  | add (t : DataType) (pl : List Nat) (len : Nat)
  | update (t : DataType) (pl : Option (List Nat)) (len : Nat)
  | flagsOp (f : Nat)
  | appearanceOp (v : Nat)
  | txPowerOp (v : Int)
  | clearOp

/-- Apply one operation, keeping the state and dropping the result code. -/
def applyOp (s : GapAdvertisingData) : StoreOp → GapAdvertisingData
  | .add t pl len => (addData s t pl len).2
  | .update t pl len => (updateData s t pl len).2
  | .flagsOp f => (addFlags s f).2
  | .appearanceOp v => (addAppearance s v).2
  | .txPowerOp v => (addTxPower s v).2
  | .clearOp => s.clear

/-- Apply a sequence of operations in order. -/
def applyOps : List StoreOp → GapAdvertisingData → GapAdvertisingData
  | [], s => s
  | op :: ops, s => applyOps ops (applyOp s op)

/-- Valid inputs in the sense of the claims: value length in `0..29`. -/
def opValid : StoreOp → Prop
  | .add _ _ len => len ≤ 29
  | .update _ _ len => len ≤ 29
  | _ => True

/-- The well-formedness invariant: a 31-cell array, occupied length at
most 31, and the occupied prefix decodes into records. -/
def WFS (s : GapAdvertisingData) : Prop :=
  s._payload.length = 31 ∧ s._payloadLen ≤ 31 ∧
    ∃ rs, DecSeg s._payload 0 s._payloadLen rs

/-- A store holding a single TX_POWER_LEVEL record of value `[5]`
(payload `[2, 0x0A, 5]`, length 3). -/
def sTx5 : GapAdvertisingData :=
  { _payload := [2, 10, 5] ++ List.replicate 28 0, _payloadLen := 3,
    _appearance := GENERIC_TAG }

/-- A store holding a single COMPLETE_LIST_16BIT_SERVICE_IDS record of
value `[1, 2]` (payload `[3, 0x03, 1, 2]`, length 4). -/
def s16 : GapAdvertisingData :=
  { _payload := [3, 3, 1, 2] ++ List.replicate 27 0, _payloadLen := 4,
    _appearance := GENERIC_TAG }

/-- A store holding a TX_POWER_LEVEL record of value `[5]` followed by a
FLAGS record of value `[6]` (length 6). -/
def sRep : GapAdvertisingData :=
  { _payload := [2, 10, 5, 2, 1, 6] ++ List.replicate 25 0, _payloadLen := 6,
    _appearance := GENERIC_TAG }

/-- A store whose 29 occupied bytes are one
COMPLETE_LIST_16BIT_SERVICE_IDS record with a 27-byte value. -/
def sBig : GapAdvertisingData :=
  { _payload := [28, 3] ++ List.replicate 27 7 ++ [0, 0], _payloadLen := 29,
    _appearance := GENERIC_TAG }

/-- A store whose 30 occupied bytes are one MANUFACTURER_SPECIFIC_DATA
record with a 28-byte value; appending any further field overflows. -/
def sFull : GapAdvertisingData :=
  { _payload := [29, 255] ++ List.replicate 28 9 ++ [0], _payloadLen := 30,
    _appearance := GENERIC_TAG }

/-- The spec scenario: `addFlags(0x02)`, `addAppearance(512)`,
`addTxPower(-20)` on a fresh store. -/
def scenarioState : GapAdvertisingData :=
  (addTxPower (addAppearance (addFlags emptyStore 0x02).2 512).2 (-20)).2

/-- Two append-class insertions of the same type:
`addData(COMPLETE_LIST_16BIT_SERVICE_IDS, [1,2], 2)` then
`addData(COMPLETE_LIST_16BIT_SERVICE_IDS, [3,4], 2)` on a fresh store. -/
def mergeTwice : GapAdvertisingData :=
  (addData (addData emptyStore DataType.completeList16 [1, 2] 2).2
    DataType.completeList16 [3, 4] 2).2

/-! Byte-level lemmas: how each primitive write loop transforms the
buffer, index by index. -/

theorem getByte_nil (i : Nat) : getByte [] i = 0 := rfl

theorem getByte_cons_zero (a : Nat) (tl : List Nat) : getByte (a :: tl) 0 = a := rfl

theorem getByte_cons_succ (a : Nat) (tl : List Nat) (i : Nat) :
    getByte (a :: tl) (i + 1) = getByte tl i := rfl

theorem length_setByte (p : List Nat) (i v : Nat) : (setByte p i v).length = p.length := by
  simp [setByte]

theorem getByte_setByte (p : List Nat) (i v j : Nat) :
    getByte (setByte p i v) j = if j = i ∧ i < p.length then v else getByte p j := by
  induction p generalizing i j with
  | nil => simp [setByte, getByte_nil]
  | cons a tl ih =>
    cases i with
    | zero =>
      cases j with
      | zero => simp [setByte, getByte_cons_zero]
      | succ j => simp [setByte, getByte_cons_succ]
    | succ i =>
      cases j with
      | zero => simp [setByte, getByte_cons_zero]
      | succ j =>
        have h1 : setByte (a :: tl) (i + 1) v = a :: setByte tl i v := rfl
        rw [h1, getByte_cons_succ, getByte_cons_succ, ih]
        simp only [List.length_cons]
        by_cases hji : j = i <;> by_cases hil : i < tl.length <;> simp [hji, hil]

theorem length_copyBytes (p : List Nat) (dst : Nat) (src : List Nat) (n : Nat) :
    (copyBytes p dst src n).length = p.length := by
  induction n with
  | zero => rfl
  | succ n ih => rw [copyBytes, length_setByte, ih]

theorem getByte_copyBytes (p : List Nat) (dst : Nat) (src : List Nat) (n j : Nat) :
    getByte (copyBytes p dst src n) j =
      if dst ≤ j ∧ j < dst + n ∧ j < p.length then getByte src (j - dst)
      else getByte p j := by
  induction n with
  | zero =>
    rw [copyBytes]
    have h : ¬(dst ≤ j ∧ j < dst + 0 ∧ j < p.length) := by omega
    rw [if_neg h]
  | succ n ih =>
    rw [copyBytes, getByte_setByte, length_copyBytes, ih]
    by_cases hj : j = dst + n
    · subst hj
      by_cases hl : dst + n < p.length
      · have h1 : dst + n - dst = n := by omega
        simp [hl, h1]
      · simp [hl]
    · by_cases hc : dst ≤ j ∧ j < dst + n ∧ j < p.length
      · have hc2 : dst ≤ j ∧ j < dst + (n + 1) ∧ j < p.length := by omega
        simp [hj, hc, hc2]
      · have hc2 : ¬(dst ≤ j ∧ j < dst + (n + 1) ∧ j < p.length) := by omega
        simp [hj, hc, hc2]

theorem length_shiftRightLoop (f len : Nat) (p : List Nat) (e : Nat) :
    (shiftRightLoop f len p e).length = p.length := by
  induction e generalizing p with
  | zero => rfl
  | succ e ih =>
    rw [shiftRightLoop]
    by_cases h : f + 1 < e + 1
    · rw [if_pos h, ih, length_setByte]
    · rw [if_neg h]

theorem getByte_shiftRightLoop (f len : Nat) (p : List Nat) (e j : Nat) :
    getByte (shiftRightLoop f len p e) j =
      if f + 2 + len ≤ j ∧ j ≤ e + len ∧ j < p.length then getByte p (j - len)
      else getByte p j := by
  induction e generalizing p with
  | zero =>
    rw [shiftRightLoop]
    have h : ¬(f + 2 + len ≤ j ∧ j ≤ 0 + len ∧ j < p.length) := by omega
    rw [if_neg h]
  | succ e ih =>
    rw [shiftRightLoop]
    by_cases hfe : f + 1 < e + 1
    · rw [if_pos hfe, ih, length_setByte]
      by_cases hA : f + 2 + len ≤ j ∧ j ≤ e + len ∧ j < p.length
      · rw [if_pos hA]
        have hA2 : f + 2 + len ≤ j ∧ j ≤ e + 1 + len ∧ j < p.length := by omega
        rw [if_pos hA2, getByte_setByte]
        have hne : ¬(j - len = e + 1 + len ∧ e + 1 + len < p.length) := by omega
        rw [if_neg hne]
      · rw [if_neg hA, getByte_setByte]
        by_cases hj : j = e + 1 + len ∧ e + 1 + len < p.length
        · have hA2 : f + 2 + len ≤ j ∧ j ≤ e + 1 + len ∧ j < p.length := by omega
          rw [if_pos hj, if_pos hA2]
          have h1 : j - len = e + 1 := by omega
          rw [h1]
        · have hA2 : ¬(f + 2 + len ≤ j ∧ j ≤ e + 1 + len ∧ j < p.length) := by
            intro hc
            rcases Nat.lt_or_ge j (e + 1 + len) with h | h
            · exact hA ⟨hc.1, by omega, hc.2.2⟩
            · exact hj ⟨by omega, by omega⟩
          rw [if_neg hj, if_neg hA2]
    · rw [if_neg hfe]
      have h : ¬(f + 2 + len ≤ j ∧ j ≤ e + 1 + len ∧ j < p.length) := by omega
      rw [if_neg h]

theorem length_shiftLeftLoop (gap : Nat) (p : List Nat) (i rem : Nat) :
    (shiftLeftLoop gap p i rem).length = p.length := by
  induction rem generalizing p i with
  | zero => rfl
  | succ rem ih => rw [shiftLeftLoop, ih, length_setByte]

theorem getByte_shiftLeftLoop (gap : Nat) (p : List Nat) (i rem j : Nat) :
    getByte (shiftLeftLoop gap p i rem) j =
      if i ≤ j ∧ j < i + rem ∧ j < p.length then getByte p (j + gap)
      else getByte p j := by
  induction rem generalizing p i with
  | zero =>
    rw [shiftLeftLoop]
    have h : ¬(i ≤ j ∧ j < i + 0 ∧ j < p.length) := by omega
    rw [if_neg h]
  | succ rem ih =>
    rw [shiftLeftLoop, ih, length_setByte]
    by_cases hA : i + 1 ≤ j ∧ j < i + 1 + rem ∧ j < p.length
    · have hA2 : i ≤ j ∧ j < i + (rem + 1) ∧ j < p.length := by omega
      rw [if_pos hA, if_pos hA2, getByte_setByte]
      have hne : ¬(j + gap = i ∧ i < p.length) := by omega
      rw [if_neg hne]
    · rw [if_neg hA, getByte_setByte]
      by_cases hj : j = i ∧ i < p.length
      · have hA2 : i ≤ j ∧ j < i + (rem + 1) ∧ j < p.length := by omega
        rw [if_pos hj, if_pos hA2, hj.1]
      · have hA2 : ¬(i ≤ j ∧ j < i + (rem + 1) ∧ j < p.length) := by
          intro hc
          rcases Nat.eq_or_lt_of_le hc.1 with h | h
          · exact hj ⟨h.symm, h ▸ hc.2.2⟩
          · exact hA ⟨h, by omega, hc.2.2⟩
        rw [if_neg hj, if_neg hA2]

theorem length_readBytes (p : List Nat) (s n : Nat) : (readBytes p s n).length = n := by
  simp [readBytes]

theorem getByte_eq_getElem (L : List Nat) (i : Nat) (h : i < L.length) :
    getByte L i = L[i] := by
  simp [getByte, List.getD, List.getElem?_eq_getElem h]

theorem shiftRightLoopChecked_eq (f len : Nat) (p : List Nat) (e : Nat)
    (he : e + len < p.length) :
    shiftRightLoopChecked f len p e = some (shiftRightLoop f len p e) := by
  induction e generalizing p with
  | zero => rfl
  | succ e ih =>
    rw [shiftRightLoopChecked, shiftRightLoop]
    by_cases h : f + 1 < e + 1
    · have h1 : e + 1 < p.length := by omega
      rw [if_pos h, if_pos h, List.getElem?_eq_getElem h1]
      dsimp only
      unfold setByteChecked
      rw [if_pos (by omega : e + 1 + len < p.length)]
      dsimp only
      rw [← getByte_eq_getElem p (e + 1) h1]
      exact ih (setByte p (e + 1 + len) (getByte p (e + 1)))
        (by rw [length_setByte]; omega)
    · rw [if_neg h, if_neg h]

theorem getByte_readBytes (p : List Nat) (s n k : Nat) (h : k < n) :
    getByte (readBytes p s n) k = getByte p (s + k) := by
  have hlen : k < (readBytes p s n).length := by rw [length_readBytes]; exact h
  rw [getByte_eq_getElem _ _ hlen]
  simp [readBytes]

theorem readBytes_eq (p : List Nat) (s n : Nat) (L : List Nat) (hL : L.length = n)
    (h : ∀ k, k < n → getByte p (s + k) = getByte L k) : readBytes p s n = L := by
  apply List.ext_getElem
  · rw [length_readBytes, hL]
  · intro i h1 h2
    rw [length_readBytes] at h1
    have := h i h1
    rw [getByte_eq_getElem L i h2] at this
    rw [← this]
    simp [readBytes]

theorem readBytes_congr (p q : List Nat) (s u n : Nat)
    (h : ∀ k, k < n → getByte q (u + k) = getByte p (s + k)) :
    readBytes q u n = readBytes p s n := by
  apply readBytes_eq
  · rw [length_readBytes]
  · intro k hk
    rw [h k hk, getByte_readBytes _ _ _ _ hk]

theorem readBytes_self (W : List Nat) (n : Nat) (h : W.length = n) :
    readBytes W 0 n = W := by
  apply readBytes_eq _ _ _ _ h
  intro k _
  rw [Nat.zero_add]

theorem readBytes_add (p : List Nat) (s a b : Nat) :
    readBytes p s (a + b) = readBytes p s a ++ readBytes p (s + a) b := by
  simp only [readBytes, List.range_add, List.map_append, List.map_map, Function.comp]
  congr 1
  simp [Nat.add_assoc]

/-! Structural lemmas about record segments, decoding and the scan. -/

theorem encLen_nil : encLen [] = 0 := rfl

theorem encLen_cons (r : ADVField) (rs : List ADVField) :
    encLen (r :: rs) = r.bytes.length + 2 + encLen rs := by
  simp [encLen]

theorem encLen_append (rs rs' : List ADVField) :
    encLen (rs ++ rs') = encLen rs + encLen rs' := by
  simp [encLen]

theorem DecSeg.len_eq {p : List Nat} {i j : Nat} {rs : List ADVField}
    (h : DecSeg p i j rs) : j = i + encLen rs := by
  induction h with
  | nil i => simp [encLen_nil]
  | cons i j r rs hlen htype hval hrest ih => rw [encLen_cons]; omega

theorem DecSeg.append_seg {p : List Nat} {i j k : Nat} {rs rs' : List ADVField}
    (h1 : DecSeg p i j rs) (h2 : DecSeg p j k rs') : DecSeg p i k (rs ++ rs') := by
  induction h1 with
  | nil i => exact h2
  | cons i j r rs hlen htype hval hrest ih =>
    exact DecSeg.cons i k r (rs ++ rs') hlen htype hval (ih h2)

theorem DecSeg.split {p : List Nat} {i k : Nat} {rs rs' : List ADVField}
    (h : DecSeg p i k (rs ++ rs')) :
    DecSeg p i (i + encLen rs) rs ∧ DecSeg p (i + encLen rs) k rs' := by
  induction rs generalizing i with
  | nil =>
    rw [encLen_nil, Nat.add_zero]
    exact ⟨DecSeg.nil i, h⟩
  | cons r rs ih =>
    cases h with
    | cons _ _ _ _ hlen htype hval hrest =>
      obtain ⟨h1, h2⟩ := ih hrest
      constructor
      · have he : i + r.bytes.length + 2 + encLen rs = i + encLen (r :: rs) := by
          rw [encLen_cons]; omega
        exact DecSeg.cons i _ r rs hlen htype hval (he ▸ h1)
      · have he : i + r.bytes.length + 2 + encLen rs = i + encLen (r :: rs) := by
          rw [encLen_cons]; omega
        exact he ▸ h2

theorem DecSeg.transport {p : List Nat} {i j : Nat} {rs : List ADVField}
    (h : DecSeg p i j rs) (q : List Nat) (i' : Nat)
    (hb : ∀ k, k < j - i → getByte q (i' + k) = getByte p (i + k)) :
    DecSeg q i' (i' + (j - i)) rs := by
  induction h generalizing q i' with
  | nil i => simpa using DecSeg.nil i'
  | cons i j r rs hlen htype hval hrest ih =>
    have hij : i + r.bytes.length + 2 ≤ j := by
      have := hrest.len_eq
      omega
    have hend : i' + (j - i) = (i' + r.bytes.length + 2) + (j - (i + r.bytes.length + 2)) := by
      omega
    rw [hend]
    apply DecSeg.cons
    · have h0 := hb 0 (by omega)
      simpa [hlen] using h0
    · have h1 := hb 1 (by omega)
      simpa [htype] using h1
    · refine (readBytes_congr p q (i + 2) (i' + 2) r.bytes.length ?_).trans hval
      intro k hk
      have := hb (2 + k) (by omega)
      have e1 : i' + (2 + k) = i' + 2 + k := by omega
      have e2 : i + (2 + k) = i + 2 + k := by omega
      rw [e1, e2] at this
      exact this
    · apply ih
      intro k hk
      have := hb (r.bytes.length + 2 + k) (by omega)
      have e1 : i' + (r.bytes.length + 2 + k) = i' + r.bytes.length + 2 + k := by omega
      have e2 : i + (r.bytes.length + 2 + k) = i + r.bytes.length + 2 + k := by omega
      rw [e1, e2] at this
      exact this

theorem DecSeg.decode_eq {p : List Nat} {i n : Nat} {rs : List ADVField}
    (h : DecSeg p i n rs) : decodeFrom p n i = some rs := by
  induction h with
  | nil i =>
    rw [decodeFrom, dif_neg (by omega : ¬i < i)]
  | cons i n r rs hlen htype hval hrest ih =>
    have hin : i + r.bytes.length + 2 ≤ n := by
      have := hrest.len_eq
      omega
    rw [decodeFrom, dif_pos (by omega : i < n),
      dif_pos (by rw [hlen]; omega : 1 ≤ getByte p i ∧ i + getByte p i + 1 ≤ n)]
    have he : i + getByte p i + 1 = i + r.bytes.length + 2 := by rw [hlen]; omega
    rw [he, ih]
    have hb : getByte p i - 1 = r.bytes.length := by rw [hlen]; omega
    rw [hb, htype, hval]

theorem decode_DecSeg_aux (p : List Nat) (n : Nat) :
    ∀ m i rs, n - i ≤ m → i ≤ n → decodeFrom p n i = some rs → DecSeg p i n rs := by
  intro m
  induction m with
  | zero =>
    intro i rs hm hin h
    have hi : i = n := by omega
    subst hi
    rw [decodeFrom, dif_neg (by omega : ¬i < i)] at h
    cases h
    exact DecSeg.nil i
  | succ m ih =>
    intro i rs hm hin h
    by_cases hi : i < n
    · rw [decodeFrom, dif_pos hi] at h
      by_cases hL : 1 ≤ getByte p i ∧ i + getByte p i + 1 ≤ n
      · rw [dif_pos hL] at h
        cases hrec : decodeFrom p n (i + getByte p i + 1) with
        | none => rw [hrec] at h; cases h
        | some rs' =>
          rw [hrec] at h
          cases h
          have hrest := ih (i + getByte p i + 1) rs' (by omega) hL.2 hrec
          apply DecSeg.cons
          · show getByte p i = (readBytes p (i + 2) (getByte p i - 1)).length + 1
            rw [length_readBytes]
            omega
          · rfl
          · rw [length_readBytes]
          · rw [length_readBytes]
            have he : i + (getByte p i - 1) + 2 = i + getByte p i + 1 := by omega
            rw [he]
            exact hrest
      · rw [dif_neg hL] at h
        cases h
    · rw [decodeFrom, dif_neg hi] at h
      cases h
      have he : i = n := by omega
      subst he
      exact DecSeg.nil i

theorem decode_DecSeg {p : List Nat} {n : Nat} {rs : List ADVField}
    (h : decodeFrom p n 0 = some rs) : DecSeg p 0 n rs :=
  decode_DecSeg_aux p n n 0 rs (by omega) (by omega) h

theorem findFieldFrom_eq {p : List Nat} {i n : Nat} {rs : List ADVField}
    (h : DecSeg p i n rs) (tag : Nat) :
    findFieldFrom p n tag i = firstMatchOffset rs tag i := by
  induction h with
  | nil i =>
    rw [findFieldFrom, dif_neg (by omega : ¬i < i)]
    rfl
  | cons i n r rs hlen htype hval hrest ih =>
    have hin : i + r.bytes.length + 2 ≤ n := by
      have := hrest.len_eq
      omega
    rw [findFieldFrom, dif_pos (by omega : i < n), htype, firstMatchOffset]
    by_cases hr : r.ftype = tag
    · rw [if_pos hr, if_pos hr]
    · rw [if_neg hr, if_neg hr]
      have he : i + getByte p i + 1 = i + r.bytes.length + 2 := by rw [hlen]; omega
      rw [he, ih]

theorem firstMatchOffset_of_first (before : List ADVField) (r : ADVField)
    (after : List ADVField) (tag i : Nat) (hb : ∀ b ∈ before, b.ftype ≠ tag)
    (hr : r.ftype = tag) :
    firstMatchOffset (before ++ r :: after) tag i = some (i + encLen before) := by
  induction before generalizing i with
  | nil =>
    rw [encLen_nil]
    simp [firstMatchOffset, hr]
  | cons b before ih =>
    have hbne : b.ftype ≠ tag := hb b (by simp)
    rw [List.cons_append, firstMatchOffset]
    rw [if_neg hbne, ih _ (fun x hx => hb x (List.mem_cons_of_mem b hx))]
    rw [encLen_cons]
    have : i + b.bytes.length + 2 + encLen before = i + (b.bytes.length + 2 + encLen before) := by
      omega
    rw [this]

theorem firstMatchOffset_none (rs : List ADVField) (tag i : Nat)
    (h : ∀ r ∈ rs, r.ftype ≠ tag) : firstMatchOffset rs tag i = Option.none := by
  induction rs generalizing i with
  | nil => rfl
  | cons r rs ih =>
    rw [firstMatchOffset, if_neg (h r (by simp))]
    exact ih _ (fun x hx => h x (List.mem_cons_of_mem r hx))

theorem firstMatchOffset_some_decomp (rs : List ADVField) (tag i pos : Nat)
    (h : firstMatchOffset rs tag i = some pos) :
    ∃ before r after, rs = before ++ r :: after ∧ r.ftype = tag ∧
      (∀ b ∈ before, b.ftype ≠ tag) ∧ pos = i + encLen before := by
  induction rs generalizing i with
  | nil => cases h
  | cons r rs ih =>
    rw [firstMatchOffset] at h
    by_cases hr : r.ftype = tag
    · rw [if_pos hr] at h
      cases h
      exact ⟨[], r, rs, by simp, hr, by simp, by simp [encLen_nil]⟩
    · rw [if_neg hr] at h
      obtain ⟨before, r', after, h1, h2, h3, h4⟩ := ih _ h
      refine ⟨r :: before, r', after, by simp [h1], h2, ?_, ?_⟩
      · intro b hb
        rcases List.mem_cons.mp hb with h | h
        · exact h ▸ hr
        · exact h3 b h
      · rw [encLen_cons]
        omega

/-! Operation-level characterisations, one per branch of the source. -/

theorem appendField_spec (s : GapAdvertisingData) (t : DataType) (W : List Nat)
    (len : Nat) (rs : List ADVField) (h31 : s._payload.length = 31)
    (hdec : DecSeg s._payload 0 s._payloadLen rs)
    (hfit : s._payloadLen + len + 2 ≤ 31) :
    (appendField s t W len).1 = BleError.none ∧
    (appendField s t W len).2._payload.length = 31 ∧
    (appendField s t W len).2._payloadLen = s._payloadLen + len + 2 ∧
    (appendField s t W len).2._appearance = s._appearance ∧
    DecSeg (appendField s t W len).2._payload 0 (s._payloadLen + len + 2)
      (rs ++ [⟨t.tag, readBytes W 0 len⟩]) := by
  have hne : ¬(s._payloadLen + len + 2 > GAP_ADVERTISING_DATA_MAX_PAYLOAD) := by
    rw [GAP_ADVERTISING_DATA_MAX_PAYLOAD]
    omega
  rw [appendField, if_neg hne]
  set n := s._payloadLen with hn
  set p := s._payload with hp
  set p3 := copyBytes (setByte (setByte p n (len + 1)) (n + 1) t.tag) (n + 2) W len with hp3
  have hlen3 : p3.length = 31 := by
    rw [hp3, length_copyBytes, length_setByte, length_setByte, h31]
  have hget : ∀ j, getByte p3 j =
      if n + 2 ≤ j ∧ j < n + 2 + len then getByte W (j - (n + 2))
      else if j = n + 1 then t.tag
      else if j = n then len + 1
      else getByte p j := by
    intro j
    rw [hp3, getByte_copyBytes, length_setByte, length_setByte, getByte_setByte,
      length_setByte, getByte_setByte, h31]
    by_cases h1 : n + 2 ≤ j ∧ j < n + 2 + len
    · rw [if_pos ⟨h1.1, h1.2, by omega⟩, if_pos h1]
    · rw [if_neg (by omega : ¬(n + 2 ≤ j ∧ j < n + 2 + len ∧ j < 31)), if_neg h1]
      by_cases h2 : j = n + 1
      · rw [if_pos (by omega : j = n + 1 ∧ n + 1 < 31), if_pos h2]
      · rw [if_neg (by omega : ¬(j = n + 1 ∧ n + 1 < 31)), if_neg h2]
        by_cases h3 : j = n
        · rw [if_pos (by omega : j = n ∧ n < 31), if_pos h3]
        · rw [if_neg (by omega : ¬(j = n ∧ n < 31)), if_neg h3]
  refine ⟨rfl, hlen3, rfl, rfl, ?_⟩
  show DecSeg p3 0 (n + len + 2) (rs ++ [⟨t.tag, readBytes W 0 len⟩])
  have part1 : DecSeg p3 0 n rs := by
    have := hdec.transport p3 0 (fun k hk => by
      rw [hget]
      rw [if_neg (by omega), if_neg (by omega), if_neg (by omega)])
    simpa using this
  have part2 : DecSeg p3 n (n + len + 2) [⟨t.tag, readBytes W 0 len⟩] := by
    have hend : n + len + 2 = n + (readBytes W 0 len).length + 2 := by
      rw [length_readBytes]
    rw [hend]
    apply DecSeg.cons
    · show getByte p3 n = (readBytes W 0 len).length + 1
      rw [hget, if_neg (by omega), if_neg (by omega), if_pos rfl, length_readBytes]
    · show getByte p3 (n + 1) = t.tag
      rw [hget, if_neg (by omega), if_pos rfl]
    · show readBytes p3 (n + 2) (readBytes W 0 len).length = readBytes W 0 len
      rw [length_readBytes]
      apply readBytes_congr
      intro k hk
      rw [hget, if_pos (by omega)]
      congr 1
      omega
    · exact DecSeg.nil _
  exact part1.append_seg part2

theorem DecSeg.decomp_at {p : List Nat} {n : Nat} {before : List ADVField}
    {r : ADVField} {after : List ADVField}
    (h : DecSeg p 0 n (before ++ r :: after)) :
    DecSeg p 0 (encLen before) before ∧
    getByte p (encLen before) = r.bytes.length + 1 ∧
    getByte p (encLen before + 1) = r.ftype ∧
    readBytes p (encLen before + 2) r.bytes.length = r.bytes ∧
    DecSeg p (encLen before + r.bytes.length + 2) n after ∧
    encLen before + r.bytes.length + 2 ≤ n := by
  obtain ⟨h1, h2⟩ := h.split
  rw [Nat.zero_add] at h1 h2
  cases h2 with
  | cons _ _ _ _ hlen htype hval hrest =>
    exact ⟨h1, hlen, htype, hval, hrest, by have := hrest.len_eq; omega⟩

theorem DecSeg_overwrite (p : List Nat) (n : Nat) (before : List ADVField)
    (r : ADVField) (after : List ADVField) (W : List Nat) (len : Nat)
    (h31 : p.length = 31) (hn : n ≤ 31)
    (hdec : DecSeg p 0 n (before ++ r :: after)) (hlen : len = r.bytes.length) :
    DecSeg (copyBytes p (encLen before + 2) W len) 0 n
      (before ++ ⟨r.ftype, readBytes W 0 len⟩ :: after) := by
  obtain ⟨hb, hrlen, hrtype, hrval, haft, hbound⟩ := hdec.decomp_at
  set pos := encLen before with hpos
  set q := copyBytes p (pos + 2) W len with hq
  have hgq : ∀ j, getByte q j =
      if pos + 2 ≤ j ∧ j < pos + 2 + len ∧ j < 31 then getByte W (j - (pos + 2))
      else getByte p j := by
    intro j
    rw [hq, getByte_copyBytes, h31]
  have part1 : DecSeg q 0 pos before := by
    have := hb.transport q 0 (fun k hk => by
      rw [hgq, if_neg (by omega)])
    simpa using this
  have part2 : DecSeg q pos n (⟨r.ftype, readBytes W 0 len⟩ :: after) := by
    have hend : n = pos + (readBytes W 0 len).length + 2 + (n - (pos + r.bytes.length + 2)) := by
      rw [length_readBytes]
      omega
    rw [hend]
    apply DecSeg.cons
    · show getByte q pos = (readBytes W 0 len).length + 1
      rw [hgq, if_neg (by omega), hrlen, length_readBytes, hlen]
    · show getByte q (pos + 1) = r.ftype
      rw [hgq, if_neg (by omega), hrtype]
    · show readBytes q (pos + 2) (readBytes W 0 len).length = readBytes W 0 len
      rw [length_readBytes]
      apply readBytes_congr
      intro k hk
      rw [hgq, if_pos (by omega)]
      congr 1
      omega
    · rw [length_readBytes]
      have := haft.transport q (pos + len + 2) (fun k hk => by
        rw [hgq, if_neg (by omega)]
        congr 1
        omega)
      have he : (pos + len + 2) + (n - (pos + r.bytes.length + 2)) =
          pos + len + 2 + (n - (pos + r.bytes.length + 2)) := rfl
      rw [hlen]
      have he2 : pos + r.bytes.length + 2 + (n - (pos + r.bytes.length + 2)) =
          (pos + r.bytes.length + 2) + (n - (pos + r.bytes.length + 2)) := rfl
      rw [he2]
      rw [hlen] at this
      exact this
  exact part1.append_seg part2

theorem addData_replace_same_spec (s : GapAdvertisingData) (t : DataType) (W : List Nat)
    (len : Nat) (before : List ADVField) (r : ADVField) (after : List ADVField)
    (h31 : s._payload.length = 31) (hn : s._payloadLen ≤ 31)
    (hdec : DecSeg s._payload 0 s._payloadLen (before ++ r :: after))
    (hfirst : ∀ b ∈ before, b.ftype ≠ t.tag) (hr : r.ftype = t.tag)
    (hmc : t.mergeClass = MergeClass.replace) (hlen : len = r.bytes.length) :
    addData s t W len =
      (BleError.bufferOverflow,
        { s with _payload := copyBytes s._payload (encLen before + 2) W r.bytes.length }) ∧
    DecSeg (copyBytes s._payload (encLen before + 2) W r.bytes.length) 0 s._payloadLen
      (before ++ ⟨r.ftype, readBytes W 0 r.bytes.length⟩ :: after) := by
  obtain ⟨hb, hrlen, hrtype, hrval, haft, hbound⟩ := hdec.decomp_at
  have hfind : findFieldFrom s._payload s._payloadLen t.tag 0 = some (encLen before) := by
    rw [findFieldFrom_eq hdec t.tag]
    have := firstMatchOffset_of_first before r after t.tag 0 hfirst hr
    rw [this, Nat.zero_add]
  have hd : getByte s._payload (encLen before) - 1 = r.bytes.length := by
    rw [hrlen]
    omega
  constructor
  · rw [addData, hfind, hmc]
    simp only [hd]
    rw [if_pos hlen]
  · rw [← hlen]
    have := DecSeg_overwrite s._payload s._payloadLen before r after W len h31 hn hdec hlen
    rw [hlen] at this ⊢
    exact this

theorem first_match_split (rs : List ADVField) (Q : ADVField → Prop) :
    (∀ r ∈ rs, ¬Q r) ∨
      ∃ before r after, rs = before ++ r :: after ∧ Q r ∧ ∀ b ∈ before, ¬Q b := by
  induction rs with
  | nil => exact Or.inl (by simp)
  | cons r rs ih =>
    by_cases hq : Q r
    · exact Or.inr ⟨[], r, rs, by simp, hq, by simp⟩
    · rcases ih with h | ⟨before, r', after, h1, h2, h3⟩
      · refine Or.inl ?_
        intro x hx
        rcases List.mem_cons.mp hx with h' | h'
        · exact h' ▸ hq
        · exact h x h'
      · refine Or.inr ⟨r :: before, r', after, by simp [h1], h2, ?_⟩
        intro b hb
        rcases List.mem_cons.mp hb with h' | h'
        · exact h' ▸ hq
        · exact h3 b h'

theorem updateDataLoop_none (p : List Nat) {i n : Nat} {rs : List ADVField}
    (h : DecSeg p i n rs) (tag : Nat) (pl : List Nat) (len : Nat)
    (hnone : ∀ r ∈ rs, ¬(r.ftype = tag ∧ r.bytes.length = len)) :
    updateDataLoop p n tag pl len i = (BleError.unspecified, p) := by
  induction h with
  | nil i =>
    rw [updateDataLoop, dif_neg (by omega : ¬i < i)]
  | cons i n r rs hlen htype hval hrest ih =>
    have hin : i + r.bytes.length + 2 ≤ n := by
      have := hrest.len_eq
      omega
    rw [updateDataLoop, dif_pos (by omega : i < n)]
    rw [if_neg (by
      intro hc
      exact hnone r (by simp) ⟨htype ▸ hc.2, by rw [hlen] at hc; omega⟩)]
    have he : i + getByte p i + 1 = i + r.bytes.length + 2 := by rw [hlen]; omega
    rw [he]
    exact ih (fun x hx => hnone x (List.mem_cons_of_mem r hx))

theorem updateDataLoop_found (p : List Nat) {i n : Nat} {before : List ADVField}
    {r : ADVField} {after : List ADVField}
    (h : DecSeg p i n (before ++ r :: after)) (tag : Nat) (pl : List Nat) (len : Nat)
    (hfirst : ∀ b ∈ before, ¬(b.ftype = tag ∧ b.bytes.length = len))
    (hr : r.ftype = tag) (hlen : r.bytes.length = len) :
    updateDataLoop p n tag pl len i =
      (BleError.none, copyBytes p (i + encLen before + 2) pl len) := by
  induction before generalizing i with
  | nil =>
    cases h with
    | cons _ _ _ _ hlen2 htype hval hrest =>
      have hin : i + r.bytes.length + 2 ≤ n := by
        have := hrest.len_eq
        omega
      rw [updateDataLoop, dif_pos (by omega : i < n)]
      rw [if_pos ⟨by rw [hlen2]; omega, by rw [htype, hr]⟩]
      rw [encLen_nil]
  | cons b before ih =>
    cases h with
    | cons _ _ _ _ hlen2 htype hval hrest =>
      have hin : i + b.bytes.length + 2 ≤ n := by
        have := hrest.len_eq
        have := (DecSeg.split hrest).2.len_eq
        omega
      rw [updateDataLoop, dif_pos (by
        have := hrest.len_eq
        have h2 := (DecSeg.split hrest).2.len_eq
        rw [encLen_cons] at h2
        omega : i < n)]
      rw [if_neg (by
        intro hc
        exact hfirst b (by simp) ⟨htype ▸ hc.2, by rw [hlen2] at hc; omega⟩)]
      have he : i + getByte p i + 1 = i + b.bytes.length + 2 := by rw [hlen2]; omega
      rw [he]
      rw [ih hrest (fun x hx => hfirst x (List.mem_cons_of_mem b hx))]
      rw [encLen_cons]
      have he2 : i + b.bytes.length + 2 + encLen before + 2 =
          i + (b.bytes.length + 2 + encLen before) + 2 := by omega
      rw [he2]

theorem addData_append_merge_spec (s : GapAdvertisingData) (t : DataType) (W : List Nat)
    (len : Nat) (before : List ADVField) (r : ADVField) (after : List ADVField)
    (h31 : s._payload.length = 31) (hn : s._payloadLen ≤ 31)
    (hdec : DecSeg s._payload 0 s._payloadLen (before ++ r :: after))
    (hfirst : ∀ b ∈ before, b.ftype ≠ t.tag) (hr : r.ftype = t.tag)
    (hmc : t.mergeClass = MergeClass.append)
    (hfit : s._payloadLen + len ≤ 31) :
    (addData s t W len).1 = BleError.none ∧
    (addData s t W len).2._payload.length = 31 ∧
    (addData s t W len).2._payloadLen = s._payloadLen + len ∧
    (addData s t W len).2._appearance = s._appearance ∧
    DecSeg (addData s t W len).2._payload 0 (s._payloadLen + len)
      (before ++ ⟨r.ftype, readBytes W 0 len ++ r.bytes⟩ :: after) := by
  obtain ⟨hb, hrlen, hrtype, hrval, haft, hbound⟩ := hdec.decomp_at
  set pos := encLen before with hposdef
  set n := s._payloadLen with hndef
  set p := s._payload with hpdef
  have hfind : findFieldFrom p n t.tag 0 = some pos := by
    rw [findFieldFrom_eq hdec t.tag]
    have := firstMatchOffset_of_first before r after t.tag 0 hfirst hr
    rw [this, Nat.zero_add]
  set rb := r.bytes.length with hrbdef
  set p1 := shiftRightLoop pos len p n with hp1
  set p2 := copyBytes p1 (pos + 2) W len with hp2
  set p3 := setByte p2 pos ((getByte p2 pos + len) % 256) with hp3
  have hlen1 : p1.length = 31 := by rw [hp1, length_shiftRightLoop, h31]
  have hlen2 : p2.length = 31 := by rw [hp2, length_copyBytes, hlen1]
  have hlen3 : p3.length = 31 := by rw [hp3, length_setByte, hlen2]
  have hg1 : ∀ j, getByte p1 j =
      if pos + 2 + len ≤ j ∧ j ≤ n + len ∧ j < 31 then getByte p (j - len)
      else getByte p j := by
    intro j
    rw [hp1, getByte_shiftRightLoop, h31]
  have hg2 : ∀ j, getByte p2 j =
      if pos + 2 ≤ j ∧ j < pos + 2 + len ∧ j < 31 then getByte W (j - (pos + 2))
      else getByte p1 j := by
    intro j
    rw [hp2, getByte_copyBytes, hlen1]
  have hgp2pos : getByte p2 pos = rb + 1 := by
    rw [hg2 pos, if_neg (by omega), hg1 pos, if_neg (by omega), hrlen]
  have hmod : (getByte p2 pos + len) % 256 = rb + 1 + len := by
    rw [hgp2pos, Nat.mod_eq_of_lt (by omega)]
  have hg3 : ∀ j, getByte p3 j = if j = pos then rb + 1 + len else getByte p2 j := by
    intro j
    rw [hp3, getByte_setByte, hlen2, hmod]
    by_cases hj : j = pos
    · rw [if_pos ⟨hj, by omega⟩, if_pos hj]
    · rw [if_neg (by omega : ¬(j = pos ∧ pos < 31)), if_neg hj]
  have hU : addData s t W len = (BleError.none, { s with _payload := p3, _payloadLen := n + len }) := by
    rw [addData, hfind, hmc]
    dsimp only
    rw [if_pos (by rw [GAP_ADVERTISING_DATA_MAX_PAYLOAD]; omega : n + len ≤ GAP_ADVERTISING_DATA_MAX_PAYLOAD)]
  rw [hU]
  refine ⟨rfl, hlen3, rfl, rfl, ?_⟩
  show DecSeg p3 0 (n + len) (before ++ ⟨r.ftype, readBytes W 0 len ++ r.bytes⟩ :: after)
  have part1 : DecSeg p3 0 pos before := by
    have := hb.transport p3 0 (fun k hk => by
      rw [hg3, if_neg (by omega), hg2, if_neg (by omega), hg1, if_neg (by omega)])
    simpa using this
  have part2 : DecSeg p3 pos (n + len)
      (⟨r.ftype, readBytes W 0 len ++ r.bytes⟩ :: after) := by
    have hend : n + len =
        pos + (readBytes W 0 len ++ r.bytes).length + 2 + (n - (pos + rb + 2)) := by
      rw [List.length_append, length_readBytes]
      omega
    rw [hend]
    apply DecSeg.cons
    · show getByte p3 pos = (readBytes W 0 len ++ r.bytes).length + 1
      rw [hg3, if_pos rfl, List.length_append, length_readBytes]
      omega
    · show getByte p3 (pos + 1) = r.ftype
      rw [hg3, if_neg (by omega), hg2, if_neg (by omega), hg1, if_neg (by omega), hrtype]
    · show readBytes p3 (pos + 2) (readBytes W 0 len ++ r.bytes).length =
        readBytes W 0 len ++ r.bytes
      rw [List.length_append, length_readBytes, readBytes_add]
      congr 1
      · apply readBytes_congr
        intro k hk
        rw [hg3, if_neg (by omega), hg2, if_pos (by omega)]
        congr 1
        omega
      · refine (readBytes_congr p p3 (pos + 2) (pos + 2 + len) rb ?_).trans hrval
        intro k hk
        rw [hg3, if_neg (by omega), hg2, if_neg (by omega), hg1,
          if_pos (by omega : pos + 2 + len ≤ pos + 2 + len + k ∧
            pos + 2 + len + k ≤ n + len ∧ pos + 2 + len + k < 31)]
        congr 1
        omega
    · have := haft.transport p3 (pos + rb + 2 + len) (fun k hk => by
        rw [hg3, if_neg (by omega), hg2, if_neg (by omega), hg1, if_pos (by omega)]
        congr 1
        omega)
      have he : pos + (readBytes W 0 len ++ r.bytes).length + 2 =
          pos + rb + 2 + len := by
        rw [List.length_append, length_readBytes]
        omega
      rw [he]
      exact this
  exact part1.append_seg part2

theorem addData_replace_diff_spec (s : GapAdvertisingData) (t : DataType) (W : List Nat)
    (len : Nat) (before : List ADVField) (r : ADVField) (after : List ADVField)
    (h31 : s._payload.length = 31) (hn : s._payloadLen ≤ 31)
    (hdec : DecSeg s._payload 0 s._payloadLen (before ++ r :: after))
    (hfirst : ∀ b ∈ before, b.ftype ≠ t.tag) (hr : r.ftype = t.tag)
    (hmc : t.mergeClass = MergeClass.replace)
    (hne : len ≠ r.bytes.length)
    (hfit : (s._payloadLen : Int) - (r.bytes.length : Int) + (len : Int) ≤ 31) :
    (addData s t W len).1 = BleError.none ∧
    (addData s t W len).2._payload.length = 31 ∧
    (addData s t W len).2._payloadLen = s._payloadLen - (r.bytes.length + 2) + len + 2 ∧
    (addData s t W len).2._appearance = s._appearance ∧
    DecSeg (addData s t W len).2._payload 0
      (s._payloadLen - (r.bytes.length + 2) + len + 2)
      ((before ++ after) ++ [⟨t.tag, readBytes W 0 len⟩]) := by
  obtain ⟨hb, hrlen, hrtype, hrval, haft, hbound⟩ := hdec.decomp_at
  set pos := encLen before with hposdef
  set n := s._payloadLen with hndef
  set p := s._payload with hpdef
  have hfind : findFieldFrom p n t.tag 0 = some pos := by
    rw [findFieldFrom_eq hdec t.tag]
    have := firstMatchOffset_of_first before r after t.tag 0 hfirst hr
    rw [this, Nat.zero_add]
  set rb := r.bytes.length with hrbdef
  have hd : getByte p pos - 1 = rb := by
    rw [hrlen]
    omega
  set p1 := shiftLeftLoop (rb + 2) p pos (n - (pos + (rb + 2))) with hp1
  have hlen1 : p1.length = 31 := by rw [hp1, length_shiftLeftLoop, h31]
  have hg1 : ∀ j, getByte p1 j =
      if pos ≤ j ∧ j < pos + (n - (pos + (rb + 2))) ∧ j < 31 then getByte p (j + (rb + 2))
      else getByte p j := by
    intro j
    rw [hp1, getByte_shiftLeftLoop, h31]
  set s1 : GapAdvertisingData :=
    { s with _payload := p1, _payloadLen := n - (rb + 2) } with hs1
  have hdec1 : DecSeg p1 0 (n - (rb + 2)) (before ++ after) := by
    have part1 : DecSeg p1 0 pos before := by
      have := hb.transport p1 0 (fun k hk => by
        rw [hg1, if_neg (by omega)])
      simpa using this
    have part2 : DecSeg p1 pos (n - (rb + 2)) after := by
      have := haft.transport p1 pos (fun k hk => by
        rw [hg1, if_pos (by omega)]
        congr 1
        omega)
      have he : pos + (n - (pos + rb + 2)) = n - (rb + 2) := by omega
      rw [← he]
      exact this
    exact part1.append_seg part2
  have hU : addData s t W len = appendField s1 t W len := by
    rw [addData, hfind, hmc]
    dsimp only
    simp only [hd]
    rw [if_neg hne]
    rw [if_pos (by omega : (s._payloadLen : Int) - (rb : Int) + (len : Int) ≤ 31)]
  have happ := appendField_spec s1 t W len (before ++ after) (by exact hlen1) hdec1
    (by
      show n - (rb + 2) + len + 2 ≤ 31
      omega)
  rw [hU]
  have hplen : s1._payloadLen = n - (rb + 2) := rfl
  refine ⟨happ.1, happ.2.1, ?_, happ.2.2.2.1, ?_⟩
  · rw [happ.2.2.1]
  · have := happ.2.2.2.2
    exact this

/-! Preservation of the well-formedness invariant by every operation. -/

theorem WFS_emptyStore : WFS emptyStore :=
  ⟨by simp [emptyStore], by simp [emptyStore], [], DecSeg.nil 0⟩

theorem WFS_addData (s : GapAdvertisingData) (t : DataType) (W : List Nat) (len : Nat)
    (h : WFS s) : WFS (addData s t W len).2 := by
  obtain ⟨h31, hn, rs, hdec⟩ := h
  cases hfind : findFieldFrom s._payload s._payloadLen t.tag 0 with
  | none =>
    have hU : addData s t W len = appendField s t W len := by
      rw [addData, hfind]
    rw [hU]
    by_cases hfit : s._payloadLen + len + 2 > GAP_ADVERTISING_DATA_MAX_PAYLOAD
    · rw [appendField, if_pos hfit]
      exact ⟨h31, hn, rs, hdec⟩
    · rw [GAP_ADVERTISING_DATA_MAX_PAYLOAD] at hfit
      have happ := appendField_spec s t W len rs h31 hdec (by omega)
      refine ⟨happ.2.1, ?_, rs ++ [⟨t.tag, readBytes W 0 len⟩], ?_⟩
      · rw [happ.2.2.1]
        omega
      · rw [happ.2.2.1]
        exact happ.2.2.2.2
  | some pos =>
    have hfind2 := hfind
    rw [findFieldFrom_eq hdec t.tag] at hfind2
    obtain ⟨before, r, after, hrs, hr, hfirst, hpos⟩ :=
      firstMatchOffset_some_decomp rs t.tag 0 pos hfind2
    rw [Nat.zero_add] at hpos
    subst hrs
    subst hpos
    obtain ⟨hb, hrlen, hrtype, hrval, haft, hbound⟩ := hdec.decomp_at
    cases hmc : t.mergeClass with
    | replace =>
      by_cases hsame : len = r.bytes.length
      · obtain ⟨heq, hdec2⟩ :=
          addData_replace_same_spec s t W len before r after h31 hn hdec hfirst hr hmc hsame
        rw [heq]
        exact ⟨by rw [length_copyBytes]; exact h31, hn, _, hdec2⟩
      · by_cases hfit : (s._payloadLen : Int) - (r.bytes.length : Int) + (len : Int) ≤ 31
        · have hd := addData_replace_diff_spec s t W len before r after h31 hn hdec
            hfirst hr hmc hsame hfit
          refine ⟨hd.2.1, ?_, before ++ after ++ [⟨t.tag, readBytes W 0 len⟩], ?_⟩
          · rw [hd.2.2.1]
            omega
          · rw [hd.2.2.1]
            exact hd.2.2.2.2
        · have hdd : getByte s._payload (encLen before) - 1 = r.bytes.length := by
            rw [hrlen]
            omega
          have hU : addData s t W len = (BleError.bufferOverflow, s) := by
            rw [addData, hfind, hmc]
            dsimp only
            simp only [hdd]
            rw [if_neg hsame, if_neg hfit]
          rw [hU]
          exact ⟨h31, hn, _, hdec⟩
    | append =>
      by_cases hfit : s._payloadLen + len ≤ GAP_ADVERTISING_DATA_MAX_PAYLOAD
      · rw [GAP_ADVERTISING_DATA_MAX_PAYLOAD] at hfit
        have hm := addData_append_merge_spec s t W len before r after h31 hn hdec
          hfirst hr hmc hfit
        refine ⟨hm.2.1, ?_, before ++ ⟨r.ftype, readBytes W 0 len ++ r.bytes⟩ :: after, ?_⟩
        · rw [hm.2.2.1]
          omega
        · rw [hm.2.2.1]
          exact hm.2.2.2.2
      · have hU : addData s t W len = (BleError.bufferOverflow, s) := by
          rw [addData, hfind, hmc]
          dsimp only
          rw [if_neg hfit]
        rw [hU]
        exact ⟨h31, hn, _, hdec⟩

theorem WFS_updateData (s : GapAdvertisingData) (t : DataType) (pl : Option (List Nat))
    (len : Nat) (h : WFS s) : WFS (updateData s t pl len).2 := by
  obtain ⟨h31, hn, rs, hdec⟩ := h
  cases pl with
  | none => exact ⟨h31, hn, rs, hdec⟩
  | some pl =>
    rw [updateData]
    by_cases hz : len = 0
    · rw [if_pos hz]
      exact ⟨h31, hn, rs, hdec⟩
    · rw [if_neg hz]
      rcases first_match_split rs (fun r => r.ftype = t.tag ∧ r.bytes.length = len) with
        hno | ⟨before, r, after, hrs, hq, hfirst⟩
      · rw [updateDataLoop_none s._payload hdec t.tag pl len hno]
        exact ⟨h31, hn, rs, hdec⟩
      · subst hrs
        rw [updateDataLoop_found s._payload hdec t.tag pl len hfirst hq.1 hq.2]
        rw [Nat.zero_add]
        refine ⟨by rw [length_copyBytes]; exact h31, hn,
          before ++ ⟨r.ftype, readBytes pl 0 len⟩ :: after, ?_⟩
        exact DecSeg_overwrite s._payload s._payloadLen before r after pl len h31 hn
          hdec hq.2.symm

theorem WFS_clear (s : GapAdvertisingData) : WFS s.clear :=
  ⟨by simp [GapAdvertisingData.clear], by simp [GapAdvertisingData.clear], [], DecSeg.nil 0⟩

theorem WFS_applyOp (s : GapAdvertisingData) (op : StoreOp) (h : WFS s) :
    WFS (applyOp s op) := by
  cases op with
  | add t pl len => exact WFS_addData s t pl len h
  | update t pl len => exact WFS_updateData s t pl len h
  | flagsOp f => exact WFS_addData _ _ _ _ h
  | appearanceOp v =>
    refine WFS_addData { s with _appearance := v % 65536 } _ _ _ ?_
    obtain ⟨h31, hn, rs, hdec⟩ := h
    exact ⟨h31, hn, rs, hdec⟩
  | txPowerOp v => exact WFS_addData _ _ _ _ h
  | clearOp => exact WFS_clear s

theorem WFS_applyOps (ops : List StoreOp) (s : GapAdvertisingData) (h : WFS s) :
    WFS (applyOps ops s) := by
  induction ops generalizing s with
  | nil => exact h
  | cons op ops ih => exact ih _ (WFS_applyOp s op h)

theorem appendField_appearance (s : GapAdvertisingData) (t : DataType)
    (W : List Nat) (len : Nat) :
    (appendField s t W len).2._appearance = s._appearance := by
  rw [appendField]
  split <;> rfl

theorem addData_appearance (s : GapAdvertisingData) (t : DataType)
    (W : List Nat) (len : Nat) :
    (addData s t W len).2._appearance = s._appearance := by
  rw [addData]
  split
  · split
    · dsimp only
      split
      · rfl
      · split
        · exact appendField_appearance _ _ _ _
        · rfl
    · dsimp only
      split
      · rfl
      · rfl
  · exact appendField_appearance _ _ _ _

/-- C1: the buffer-overflow boundary for a fresh field type is as claimed,
but the no-mutation-on-failure half of the claim fails on the code: on a
store holding a TX_POWER_LEVEL record `[5]`, `addData(TX_POWER_LEVEL, [9], 1)`
takes the same-length overwrite branch, which never sets `result`, so the
call rewrites the value byte in place and still returns
`BLE_ERROR_BUFFER_OVERFLOW` — a failure result with a mutated buffer. -/
theorem claim1_failure_mutates :
    (addData sTx5 DataType.txPowerLevel [9] 1).1 = BleError.bufferOverflow ∧
    (addData sTx5 DataType.txPowerLevel [9] 1).2._payloadLen = sTx5._payloadLen ∧
    getByte (addData sTx5 DataType.txPowerLevel [9] 1).2._payload 2 = 9 ∧
    getByte sTx5._payload 2 = 5 ∧
    (addData sTx5 DataType.txPowerLevel [9] 1).2._payload ≠ sTx5._payload := by
  refine ⟨?_, ?_, ?_, ?_, ?_⟩ <;>
    simp +decide [addData, findFieldFrom, sTx5, getByte, setByte, copyBytes,
      DataType.tag, DataType.mergeClass]

/-- C3: on a store holding a TX_POWER_LEVEL record `[5]`,
`addData(TX_POWER_LEVEL, [7], 1)` overwrites the value in place, keeps
`payloadLength()` at 3, leaves all other bytes alone and makes `findField`
decode `[7]` — but it returns `BLE_ERROR_BUFFER_OVERFLOW`, not success,
because the same-length overwrite branch never updates `result`. -/
theorem claim3_replace_same_returns_overflow :
    (addData sTx5 DataType.txPowerLevel [7] 1).2._payloadLen = 3 ∧
    readBytes (addData sTx5 DataType.txPowerLevel [7] 1).2._payload 0 3 = [2, 10, 7] ∧
    findFieldFrom (addData sTx5 DataType.txPowerLevel [7] 1).2._payload 3
      DataType.txPowerLevel.tag 0 = some 0 ∧
    readBytes (addData sTx5 DataType.txPowerLevel [7] 1).2._payload 2 1 = [7] ∧
    (addData sTx5 DataType.txPowerLevel [7] 1).1 ≠ BleError.none ∧
    (addData sTx5 DataType.txPowerLevel [7] 1).1 = BleError.bufferOverflow := by
  refine ⟨?_, ?_, ?_, ?_, ?_, ?_⟩ <;>
    simp +decide [addData, findFieldFrom, sTx5, getByte, setByte, copyBytes,
      readBytes, DataType.tag, DataType.mergeClass]

/-- C5: the public const `findField` accessor resolves its inner call to
itself, so it recurses forever and never produces a result, for every
store and type — it never performs the linear scan the claim describes. -/
theorem claim5_const_findField_never_returns :
    ∀ (fuel : Nat) (s : GapAdvertisingData) (t : DataType),
      findFieldConstFuel fuel s t = Option.none := by
  intro fuel
  induction fuel with
  | zero => intro s t; rfl
  | succ fuel ih => intro s t; exact ih s t

/-- C9: with 29 occupied bytes holding an append-class record and
`len = 2`, the guard `payloadLen + len ≤ 31` passes, yet the first
iteration of the gap-opening loop writes `_payload[31]`, one past the
31-byte array: the bounds-checked embedding of the loop reports an
out-of-bounds access. -/
theorem claim9_shift_writes_out_of_bounds :
    sBig._payloadLen + 2 ≤ 31 ∧
    DataType.completeList16.mergeClass = MergeClass.append ∧
    findFieldFrom sBig._payload sBig._payloadLen DataType.completeList16.tag 0 =
      some 0 ∧
    shiftRightLoopChecked 0 2 sBig._payload sBig._payloadLen = Option.none := by
  refine ⟨by decide, by decide, ?_, by decide⟩
  simp +decide [findFieldFrom, sBig, getByte, DataType.tag]

/-- C6: the end-to-end scenario `addFlags(0x02)`, `addAppearance(512)`,
`addTxPower(-20)` gives `payloadLength() = 10` (3 + 4 + 3), not the 9 the
claim states. -/
theorem claim6_counterexample :
    getPayloadLen scenarioState = 10 ∧ getPayloadLen scenarioState ≠ 9 := by
  constructor <;>
    simp +decide [scenarioState, addFlags, addAppearance, addTxPower, addData,
      findFieldFrom, emptyStore, getByte, setByte, copyBytes, appendField,
      DataType.tag, DataType.mergeClass, GAP_ADVERTISING_DATA_MAX_PAYLOAD,
      getPayloadLen, GENERIC_TAG]

/-- C6 (amended): the scenario `addFlags(0x02)`, `addAppearance(512)`,
`addTxPower(-20)` on a fresh store gives `payloadLength() = 10`
(flags 3 + appearance 4 + txpower 3), `appearance() = 512`, and the
linear-scan `findField` locates all three records. -/
theorem claim6_scenario :
    getPayloadLen scenarioState = 10 ∧
    getAppearance scenarioState = 512 ∧
    scenarioState.findField DataType.flags = some 0 ∧
    scenarioState.findField DataType.appearance = some 3 ∧
    scenarioState.findField DataType.txPowerLevel = some 7 := by
  refine ⟨?_, ?_, ?_, ?_, ?_⟩ <;>
    simp +decide [scenarioState, addFlags, addAppearance, addTxPower, addData,
      findFieldFrom, emptyStore, getByte, setByte, copyBytes, appendField,
      DataType.tag, DataType.mergeClass, GAP_ADVERTISING_DATA_MAX_PAYLOAD,
      getPayloadLen, getAppearance, GapAdvertisingData.findField, GENERIC_TAG]

/-- C2 (counterexample): two append-class insertions `[1,2]` then `[3,4]`
of COMPLETE_LIST_16BIT_SERVICE_IDS merge into one record whose value is
`[3,4,1,2]` — the new bytes land *before* the old value, not after, so
the claimed `[1,2,3,4]` is wrong. -/
theorem claim2_counterexample :
    decodeFrom mergeTwice._payload mergeTwice._payloadLen 0 =
      some [⟨3, [3, 4, 1, 2]⟩] ∧
    decodeFrom mergeTwice._payload mergeTwice._payloadLen 0 ≠
      some [⟨3, [1, 2, 3, 4]⟩] := by
  have h : decodeFrom mergeTwice._payload mergeTwice._payloadLen 0 =
      some [⟨3, [3, 4, 1, 2]⟩] := by
    simp +decide [mergeTwice, addData, findFieldFrom, emptyStore, getByte, setByte,
      copyBytes, appendField, shiftRightLoop, DataType.tag, DataType.mergeClass,
      GAP_ADVERTISING_DATA_MAX_PAYLOAD, decodeFrom, readBytes, GENERIC_TAG]
  exact ⟨h, by rw [h]; decide⟩

/-- C2 (amended): merging into an existing append-class record, with
`payloadLen + len ≤ 30` so that the gap-opening loop stays inside the
31-byte array (at `payloadLen + len = 31` the source's first shift
iteration writes `_payload[31]`, the defect recorded under the
out-of-bounds theorem), succeeds and yields a single record of that
type whose value is the *new* bytes followed by the old value (the gap
is opened right after the type byte), with every following record
preserved and still after it; under these hypotheses the bounds-checked
embedding of the shift loop agrees with the unchecked one, so every
access of the merge is in bounds. -/
theorem claim2_append_merge (s : GapAdvertisingData) (t : DataType) (W : List Nat)
    (len : Nat) (before : List ADVField) (r : ADVField) (after : List ADVField)
    (h31 : s._payload.length = 31) (hn : s._payloadLen ≤ 31)
    (hdec : DecSeg s._payload 0 s._payloadLen (before ++ r :: after))
    (hfirst : ∀ b ∈ before, b.ftype ≠ t.tag) (hr : r.ftype = t.tag)
    (hmc : t.mergeClass = MergeClass.append)
    (hfit : s._payloadLen + len ≤ 30) (hW : W.length = len) :
    shiftRightLoopChecked (encLen before) len s._payload s._payloadLen =
      some (shiftRightLoop (encLen before) len s._payload s._payloadLen) ∧
    ∃ s', addData s t W len = (BleError.none, s') ∧
      s'._payloadLen = s._payloadLen + len ∧
      DecSeg s'._payload 0 s'._payloadLen (before ++ ⟨t.tag, W ++ r.bytes⟩ :: after) := by
  have hm := addData_append_merge_spec s t W len before r after h31 hn hdec
    hfirst hr hmc (by omega)
  refine ⟨shiftRightLoopChecked_eq (encLen before) len s._payload s._payloadLen
    (by omega), (addData s t W len).2, ?_, hm.2.2.1, ?_⟩
  · rw [← hm.1]
  · rw [hm.2.2.1]
    have := hm.2.2.2.2
    rw [readBytes_self W len hW, hr] at this
    exact this

/-- C2 witness: instantiating the amended merge theorem on a store with a
single COMPLETE_LIST_16BIT_SERVICE_IDS record `[1,2]` and new value `[3,4]`. -/
theorem claim2_witness :
    shiftRightLoopChecked 0 2 s16._payload s16._payloadLen =
      some (shiftRightLoop 0 2 s16._payload s16._payloadLen) ∧
    ∃ s', addData s16 DataType.completeList16 [3, 4] 2 = (BleError.none, s') ∧
      s'._payloadLen = s16._payloadLen + 2 ∧
      DecSeg s'._payload 0 s'._payloadLen
        ([] ++ ⟨DataType.completeList16.tag, [3, 4] ++ [1, 2]⟩ :: []) := by
  apply claim2_append_merge s16 DataType.completeList16 [3, 4] 2 [] ⟨3, [1, 2]⟩ []
  · decide
  · decide
  · apply decode_DecSeg
    show decodeFrom s16._payload 4 0 = some [⟨3, [1, 2]⟩]
    simp +decide [decodeFrom, s16, getByte, readBytes]
  · simp
  · decide
  · decide
  · decide
  · decide

/-- C8: replacing a replace-class record with a value of a different
length removes the old record (shifting the following records left),
appends the new record at the end, changes `payloadLength()` by exactly
the length difference, and preserves every other record byte-for-byte in
order. -/
theorem claim8_replace_diff (s : GapAdvertisingData) (t : DataType) (W : List Nat)
    (len : Nat) (before : List ADVField) (r : ADVField) (after : List ADVField)
    (h31 : s._payload.length = 31) (hn : s._payloadLen ≤ 31)
    (hdec : DecSeg s._payload 0 s._payloadLen (before ++ r :: after))
    (hfirst : ∀ b ∈ before, b.ftype ≠ t.tag) (hr : r.ftype = t.tag)
    (hmc : t.mergeClass = MergeClass.replace)
    (hne : len ≠ r.bytes.length)
    (hfit : (s._payloadLen : Int) - (r.bytes.length : Int) + (len : Int) ≤ 31)
    (hW : W.length = len) :
    ∃ s', addData s t W len = (BleError.none, s') ∧
      s'._payloadLen + r.bytes.length = s._payloadLen + len ∧
      DecSeg s'._payload 0 s'._payloadLen ((before ++ after) ++ [⟨t.tag, W⟩]) := by
  have hbound := hdec.decomp_at.2.2.2.2.2
  have hd := addData_replace_diff_spec s t W len before r after h31 hn hdec
    hfirst hr hmc hne hfit
  refine ⟨(addData s t W len).2, ?_, ?_, ?_⟩
  · rw [← hd.1]
  · rw [hd.2.2.1]
    omega
  · rw [hd.2.2.1]
    have := hd.2.2.2.2
    rw [readBytes_self W len hW] at this
    exact this

/-- C8 witness: on a store holding TX_POWER_LEVEL `[5]` then FLAGS `[6]`,
replacing the TX_POWER_LEVEL value with the 2-byte `[7,8]` moves the
FLAGS record to the front and appends the new record. -/
theorem claim8_witness :
    ∃ s', addData sRep DataType.txPowerLevel [7, 8] 2 = (BleError.none, s') ∧
      s'._payloadLen + 1 = sRep._payloadLen + 2 ∧
      DecSeg s'._payload 0 s'._payloadLen
        (([] ++ [⟨1, [6]⟩]) ++ [⟨DataType.txPowerLevel.tag, [7, 8]⟩]) := by
  apply claim8_replace_diff sRep DataType.txPowerLevel [7, 8] 2 [] ⟨10, [5]⟩ [⟨1, [6]⟩]
  · decide
  · decide
  · apply decode_DecSeg
    show decodeFrom sRep._payload 6 0 = some [⟨10, [5]⟩, ⟨1, [6]⟩]
    simp +decide [decodeFrom, sRep, getByte, readBytes]
  · simp
  · decide
  · decide
  · decide
  · decide
  · decide

/-- The invariant of the idealised total embedding: after any sequence
of operations with valid inputs on a fresh store, the occupied prefix
decodes into well-formed records, the length counter equals the sum of
`recordLength + 1` over them, no record length byte is zero, and the
counter never exceeds 31.  This holds of the model only because the
model drops the one reachable out-of-range write (the append merge at
`_payloadLen + len = 31`, which in the source writes `_payload[31]` and
so corrupts the object); the theorem below exhibits a valid sequence
that reaches exactly that write, so the source program escapes this
invariant. -/
theorem applyOps_invariant_in_model (ops : List StoreOp)
    (hv : ∀ op ∈ ops, opValid op) :
    ∃ rs, decodeFrom (applyOps ops emptyStore)._payload
        (applyOps ops emptyStore)._payloadLen 0 = some rs ∧
      (applyOps ops emptyStore)._payloadLen =
        (rs.map (fun r => (r.bytes.length + 1) + 1)).sum ∧
      (∀ r ∈ rs, r.bytes.length + 1 ≠ 0) ∧
      (applyOps ops emptyStore)._payloadLen ≤ 31 := by
  obtain ⟨h31, hn, rs, hdec⟩ := WFS_applyOps ops emptyStore WFS_emptyStore
  refine ⟨rs, hdec.decode_eq, ?_, ?_, hn⟩
  · have := hdec.len_eq
    rw [Nat.zero_add] at this
    rw [this]
    rfl
  · intro r _
    omega

/-- A concrete valid operation sequence instantiating the model-level
invariant. -/
theorem applyOps_invariant_example :
    (∀ op ∈ [StoreOp.flagsOp 2, StoreOp.add DataType.completeList16 [1, 2] 2],
      opValid op) ∧
    ∃ rs, decodeFrom
        (applyOps [StoreOp.flagsOp 2, StoreOp.add DataType.completeList16 [1, 2] 2]
          emptyStore)._payload
        (applyOps [StoreOp.flagsOp 2, StoreOp.add DataType.completeList16 [1, 2] 2]
          emptyStore)._payloadLen 0 = some rs ∧
      (applyOps [StoreOp.flagsOp 2, StoreOp.add DataType.completeList16 [1, 2] 2]
          emptyStore)._payloadLen =
        (rs.map (fun r => (r.bytes.length + 1) + 1)).sum ∧
      (∀ r ∈ rs, r.bytes.length + 1 ≠ 0) ∧
      (applyOps [StoreOp.flagsOp 2, StoreOp.add DataType.completeList16 [1, 2] 2]
          emptyStore)._payloadLen ≤ 31 := by
  have hv : ∀ op ∈ [StoreOp.flagsOp 2, StoreOp.add DataType.completeList16 [1, 2] 2],
      opValid op := by
    intro op hop
    rcases List.mem_cons.mp hop with h | h
    · subst h; exact trivial
    · rcases List.mem_cons.mp h with h | h
      · subst h
        show (2 : Nat) ≤ 29
        omega
      · cases h
  exact ⟨hv, applyOps_invariant_in_model _ hv⟩

/-- C4: the claimed invariant is the spec's intent, but the code breaks
it at a reachable boundary.  Both calls below have valid lengths (27 and
2, each at most 29); the first leaves exactly 29 occupied bytes holding
one append-class record; on the second, the capacity guard `29 + 2 ≤ 31`
passes, the existing record is found, and the gap-opening loop's first
iteration writes `_payload[31]` — one past the 31-byte array, where the
real object layout keeps `_payloadLen`, so the length counter the
invariant speaks about is clobbered.  The bounds-checked embedding of
that loop reports the out-of-bounds access instead of producing a
merged, still-invariant buffer. -/
theorem claim4_oob_breaks_invariant :
    (∀ op ∈ [StoreOp.add DataType.completeList16 (List.replicate 27 7) 27,
        StoreOp.add DataType.completeList16 [1, 2] 2], opValid op) ∧
    applyOps [StoreOp.add DataType.completeList16 (List.replicate 27 7) 27]
      emptyStore = sBig ∧
    sBig._payloadLen + 2 ≤ 31 ∧
    findFieldFrom sBig._payload sBig._payloadLen DataType.completeList16.tag 0 =
      some 0 ∧
    DataType.completeList16.mergeClass = MergeClass.append ∧
    shiftRightLoopChecked 0 2 sBig._payload sBig._payloadLen = Option.none := by
  refine ⟨?_, ?_, by decide, ?_, by decide, by decide⟩
  · intro op hop
    rcases List.mem_cons.mp hop with h | h
    · subst h
      show (27 : Nat) ≤ 29
      omega
    · rcases List.mem_cons.mp h with h | h
      · subst h
        show (2 : Nat) ≤ 29
        omega
      · cases h
  · show (addData emptyStore DataType.completeList16 (List.replicate 27 7) 27).2 = sBig
    simp +decide [addData, findFieldFrom, emptyStore, getByte, setByte, copyBytes,
      appendField, sBig, DataType.tag, DataType.mergeClass,
      GAP_ADVERTISING_DATA_MAX_PAYLOAD, GENERIC_TAG]
  · simp +decide [findFieldFrom, sBig, getByte, DataType.tag]

/-- C7: `updateData` rejects a null payload or zero length with
invalid-param; otherwise it succeeds exactly when some record matches
both the type and the exact length, overwriting only the first such
record's value bytes in place, and reports the not-found case with
`BLE_ERROR_UNSPECIFIED`; the length counter and all other bytes are
untouched in every case. -/
theorem claim7_updateData (s : GapAdvertisingData) (t : DataType) (pl : List Nat)
    (len : Nat) (rs : List ADVField)
    (h31 : s._payload.length = 31) (hn : s._payloadLen ≤ 31)
    (hdec : DecSeg s._payload 0 s._payloadLen rs) (hpl : pl.length = len) :
    updateData s t Option.none len = (BleError.invalidParam, s) ∧
    updateData s t (some pl) 0 = (BleError.invalidParam, s) ∧
    (len ≠ 0 →
      ((∀ r ∈ rs, ¬(r.ftype = t.tag ∧ r.bytes.length = len)) →
        updateData s t (some pl) len = (BleError.unspecified, s)) ∧
      (∀ before r after, rs = before ++ r :: after → r.ftype = t.tag →
        r.bytes.length = len →
        (∀ b ∈ before, ¬(b.ftype = t.tag ∧ b.bytes.length = len)) →
        updateData s t (some pl) len =
          (BleError.none,
            { s with _payload := copyBytes s._payload (encLen before + 2) pl len }) ∧
        DecSeg (copyBytes s._payload (encLen before + 2) pl len) 0 s._payloadLen
          (before ++ ⟨t.tag, pl⟩ :: after) ∧
        (∀ j, j < encLen before + 2 ∨ encLen before + 2 + len ≤ j →
          getByte (copyBytes s._payload (encLen before + 2) pl len) j =
            getByte s._payload j))) := by
  refine ⟨rfl, by rw [updateData]; rw [if_pos rfl], ?_⟩
  intro hlen0
  constructor
  · intro hno
    rw [updateData, if_neg hlen0,
      updateDataLoop_none s._payload hdec t.tag pl len hno]
  · intro before r after hrs hft hbl hfirst
    subst hrs
    have hfound := updateDataLoop_found s._payload hdec t.tag pl len hfirst hft hbl
    rw [Nat.zero_add] at hfound
    refine ⟨by rw [updateData, if_neg hlen0, hfound], ?_, ?_⟩
    · have := DecSeg_overwrite s._payload s._payloadLen before r after pl len h31 hn
        hdec hbl.symm
      rw [readBytes_self pl len hpl, hft] at this
      exact this
    · intro j hj
      rw [getByte_copyBytes]
      rw [if_neg (by omega)]

/-- C7 witness: updating the TX_POWER_LEVEL record `[5]` with `[9]`. -/
theorem claim7_witness :
    updateData sTx5 DataType.txPowerLevel Option.none 1 =
      (BleError.invalidParam, sTx5) ∧
    updateData sTx5 DataType.txPowerLevel (some [9]) 0 =
      (BleError.invalidParam, sTx5) ∧
    ((1 : Nat) ≠ 0 →
      ((∀ r ∈ [ADVField.mk 10 [5]],
          ¬(r.ftype = DataType.txPowerLevel.tag ∧ r.bytes.length = 1)) →
        updateData sTx5 DataType.txPowerLevel (some [9]) 1 =
          (BleError.unspecified, sTx5)) ∧
      (∀ before r after, [ADVField.mk 10 [5]] = before ++ r :: after →
        r.ftype = DataType.txPowerLevel.tag → r.bytes.length = 1 →
        (∀ b ∈ before,
          ¬(b.ftype = DataType.txPowerLevel.tag ∧ b.bytes.length = 1)) →
        updateData sTx5 DataType.txPowerLevel (some [9]) 1 =
          (BleError.none,
            { sTx5 with
                _payload := copyBytes sTx5._payload (encLen before + 2) [9] 1 }) ∧
        DecSeg (copyBytes sTx5._payload (encLen before + 2) [9] 1) 0 sTx5._payloadLen
          (before ++ ⟨DataType.txPowerLevel.tag, [9]⟩ :: after) ∧
        (∀ j, j < encLen before + 2 ∨ encLen before + 2 + 1 ≤ j →
          getByte (copyBytes sTx5._payload (encLen before + 2) [9] 1) j =
            getByte sTx5._payload j))) := by
  apply claim7_updateData sTx5 DataType.txPowerLevel [9] 1 [⟨10, [5]⟩]
  · decide
  · decide
  · apply decode_DecSeg
    show decodeFrom sTx5._payload 3 0 = some [⟨10, [5]⟩]
    simp +decide [decodeFrom, sTx5, getByte, readBytes]
  · decide

/-- C10: `getAppearance` reflects the argument of the most recent
`addAppearance` call — the cache is written before the insertion is even
attempted, so it is updated even when the insertion fails with
buffer-overflow — and a fresh store reports `GENERIC_TAG` (512), not 0. -/
theorem claim10_appearance_cache (s : GapAdvertisingData) (v : Nat)
    (hv : v < 65536) :
    getAppearance (addAppearance s v).2 = v ∧
    getAppearance emptyStore = GENERIC_TAG ∧
    getAppearance emptyStore = 512 ∧
    getAppearance emptyStore ≠ 0 ∧
    (addAppearance sFull 600).1 = BleError.bufferOverflow ∧
    getAppearance (addAppearance sFull 600).2 = 600 := by
  refine ⟨?_, rfl, rfl, by decide, ?_, ?_⟩
  · show (addData { s with _appearance := v % 65536 } DataType.appearance
      [v % 65536 % 256, v % 65536 / 256] 2).2._appearance = v
    rw [addData_appearance]
    show v % 65536 = v
    exact Nat.mod_eq_of_lt hv
  · simp +decide [addAppearance, addData, findFieldFrom, sFull, getByte,
      appendField, DataType.tag, GAP_ADVERTISING_DATA_MAX_PAYLOAD]
  · show (addData { sFull with _appearance := 600 % 65536 } DataType.appearance
      [600 % 65536 % 256, 600 % 65536 / 256] 2).2._appearance = 600
    rw [addData_appearance]

/-- C10 witness. -/
theorem claim10_witness :
    (513 : Nat) < 65536 ∧ getAppearance (addAppearance emptyStore 513).2 = 513 :=
  ⟨by decide, (claim10_appearance_cache emptyStore 513 (by decide)).1⟩
